import Mathlib

/-!
Verification of the documentation synchronization pipeline implemented in
`sync-gitlab-docs.py`.  The Python source is shallowly embedded: pure helper
functions become Lean functions over explicit data (paths are lists of
components, timestamps are integers counting seconds, the filesystem is an
inductive tree), fallible operations return `Except`/`Option`, and the
orchestrator's control flow is modelled as a function from the outcome of each
external stage to the final state.
-/

namespace SyncDocs

/-! ### Path model

Absolute POSIX paths are modelled as their list of components (the parts after
the root).  `splitSegsAux`/`splitPath` embed `pathlib`'s parsing of a textual
path into components: splitting on the separator, dropping empty components and
single-dot components (as `PurePosixPath` does on construction).
-/

/-- Split a character list on the path separator. -/
def splitSegsAux : List Char → List Char → List (List Char)
  | [], acc => [acc.reverse]
  | c :: cs, acc =>
    if c = '/' then acc.reverse :: splitSegsAux cs [] else splitSegsAux cs (c :: acc)

/-- Components of a textual path, with empty and `.` components removed,
mirroring `PurePosixPath` construction. -/
def splitPath (s : String) : List String :=
  ((splitSegsAux s.toList []).map (fun l => String.mk l)).filter
    (fun c => c != "" && c != ".")

/-- Lexical normalization of `..` components, as `Path.resolve()` performs on a
symlink-free filesystem: `..` removes the preceding component and is dropped at
the root. -/
def normalizePath (segs : List String) : List String :=
  segs.foldl (fun acc c => if c = ".." then acc.dropLast else acc ++ [c]) []

/-- Embedding of `str.startswith` for a single candidate. -/
def strStarts (s pre : String) : Bool :=
  pre.toList.isPrefixOf s.toList

/-- Join path components with the separator; the empty relative path renders as
`.`, as `str(Path("."))` does. -/
def relString (segs : List String) : String :=
  match segs with
  | [] => "."
  | [s] => s
  | s :: rest => s ++ "/" ++ relString rest

/-! ### `transform_links` (lines 343-403)

`replace_link` embeds the inner `replace_link` closure of `transform_links`,
acting on one matched markdown link `[text](target)`.  `current_file` and
`docs_root` are resolved absolute paths, given as component lists.
-/

/-- Condition under which `replace_link` leaves a link untouched: the target is
an absolute web URL, a same-document anchor, or a mailto link. -/
def isSkippedTarget (t : String) : Bool :=
  strStarts t ("http://") || strStarts t ("https://") ||
    strStarts t ("#") || strStarts t ("mailto:")

/-- Fixed prefix of the GitLab raw-content URL template. -/
def gitlabRawBase : String :=
  "https://gitlab.com/gitlab-org/gitlab/-/raw/master/doc/"

/-- Fixed query-string suffix of the GitLab raw-content URL template. -/
def refTypeSuffix : String := "?ref_type=heads"

/-- Resolution of a link target relative to the directory of the file holding
the link: `(current_file.parent / link_path).resolve()`. -/
def resolveTarget (target : String) (current_file : List String) : List String :=
  let base := if strStarts target ("/") then [] else current_file.dropLast
  normalizePath (base ++ splitPath target)

/-- Embedding of the `replace_link` closure in `transform_links`: rewrite one
markdown link `[text](target)` found in `current_file`, with document root
`docs_root`. -/
def replace_link (text target : String) (current_file docs_root : List String) :
    String :=
  if isSkippedTarget target then
    "[" ++ text ++ "](" ++ target ++ ")"
  else
    let link_target := resolveTarget target current_file
    if docs_root.isPrefixOf link_target then
      "[" ++ text ++ "](./" ++ relString (link_target.drop docs_root.length) ++ ")"
    else if docs_root.dropLast.isPrefixOf link_target then
      "[" ++ text ++ "](" ++ gitlabRawBase ++
        relString (link_target.drop docs_root.dropLast.length) ++ refTypeSuffix ++ ")"
    else
      "[" ++ text ++ "](" ++ target ++ ")"

/-! ### `check_cooldown` (lines 126-185)

The lock file's observable states: absent, unreadable/not valid JSON, or a JSON
record.  A record's `last_status` field is `none` when missing; its `last_run`
field is `none` when missing and `some none` when present but not parseable as
a timestamp; a parsed timestamp is an integer count of seconds.
-/

/-- Fields of a parsed lock record, as observed by `check_cooldown`. -/
structure LockRecord where
  last_status : Option String
  last_run : Option (Option Int)
deriving DecidableEq

/-- Observable content of the lock file. -/
inductive LockContent where
  | absent : LockContent
  | malformed : LockContent
  | record : LockRecord → LockContent
deriving DecidableEq

/-- The fixed cooldown period, `timedelta(days=3)`, in seconds. -/
def cooldownSeconds : Int := 259200

/-- Embedding of `check_cooldown`: decide whether a run may proceed, or fail
with the umbrella update error on corrupt lock data. -/
def check_cooldown (lock : LockContent) (force : Bool) (now : Int) :
    Except String Bool :=
  if force then Except.ok true
  else
    match lock with
    | LockContent.absent => Except.ok true
    | LockContent.malformed => Except.error ("Failed to read lock file")
    | LockContent.record r =>
      if r.last_status ≠ some ("success") then Except.ok true
      else
        match r.last_run with
        | none => Except.error ("Invalid timestamp in lock file")
        | some none => Except.error ("Invalid timestamp in lock file")
        | some (some last_run) =>
          if now - last_run < cooldownSeconds then Except.ok false
          else Except.ok true

/-! ### `validate_extraction` (lines 298-336)

The extracted directory is modelled as the list of its top-level entries, each
an `FSEntry` tree.  `pathlib`'s `rglob("*.md")` matches every descendant entry
— file or directory — whose name matches the glob, so the markdown count used
by the code (`mdEntryCountList`) counts both; `mdFileCountList` counts only
files and follows the specification's words "markdown file", for comparison.
-/

/-- A filesystem entry: a file or a directory with its children. -/
inductive FSEntry where
  | file : String → FSEntry
  | dir : String → List FSEntry → FSEntry

/-- Name of a filesystem entry. -/
def FSEntry.name : FSEntry → String
  | FSEntry.file n => n
  | FSEntry.dir n _ => n

/-- Embedding of `str.endswith` via character lists. -/
def strEnds (s suf : String) : Bool :=
  suf.toList.isSuffixOf s.toList

mutual

/-- Number of descendant entries of one entry (the entry itself included)
matched by `rglob("*.md")`: files and directories alike. -/
def mdEntryCount : FSEntry → Nat
  | FSEntry.file n => if strEnds n (".md") then 1 else 0
  | FSEntry.dir n cs => (if strEnds n (".md") then 1 else 0) + mdEntryCountList cs

/-- Number of entries matched by `rglob("*.md")` among a list of trees. -/
def mdEntryCountList : List FSEntry → Nat
  | [] => 0
  | e :: es => mdEntryCount e + mdEntryCountList es

end

mutual

/-- Modelled from the spec: number of descendant markdown *files* (the
specification's "markdown file"), counting only regular files whose name ends
in `.md`, unlike the code's `rglob` which also matches directories. -/
def mdFileCount : FSEntry → Nat
  | FSEntry.file n => if strEnds n (".md") then 1 else 0
  | FSEntry.dir _ cs => mdFileCountList cs

/-- Modelled from the spec: markdown-file count over a list of trees. -/
def mdFileCountList : List FSEntry → Nat
  | [] => 0
  | e :: es => mdFileCount e + mdFileCountList es

end

/-- Look up a child directory by name and return its children.  Returns `none`
when no entry of that name exists or the entry is not a directory, the two
cases in which `top / name` fails the `exists()`/`is_dir()` test. -/
def lookupDir (n : String) : List FSEntry → Option (List FSEntry)
  | [] => none
  | e :: es =>
    if e.name = n then
      match e with
      | FSEntry.dir _ cs => some cs
      | FSEntry.file _ => none
    else lookupDir n es

/-- Embedding of `validate_extraction`: check the shape of the extracted tree
and return the nested `doc/ci` document root. -/
def validate_extraction (entries : List FSEntry) : Except String FSEntry :=
  match entries with
  | [] => Except.error ("Extraction produced no files")
  | [FSEntry.dir _ cs] =>
    match lookupDir ("doc") cs with
    | none => Except.error ("Expected doc ci directory not found")
    | some dcs =>
      match lookupDir ("ci") dcs with
      | none => Except.error ("Expected doc ci directory not found")
      | some ccs =>
        if mdEntryCountList ccs = 0 then
          Except.error ("No markdown files found")
        else Except.ok (FSEntry.dir ("ci") ccs)
  | _ => Except.error ("Unexpected extraction structure")

/-! ### `remove_hugo_shortcodes` (lines 55-61, 406-427)

Markdown content is modelled as a token list: literal text runs and shortcode
tags of the two bracket styles (`angle` for the form written with angle
brackets, `pct` for the percent form).  A token `openTag s n` denotes the
literal open tag of style `s` with tag name `n`, and `closeTag s n` the
corresponding close tag; `text` runs contain no tag syntax and may span
multiple lines.  `stripStyle s` embeds one `Pattern.sub("", content)` call:
`re.sub` scans left to right, and for each open tag of style `s` the lazy
`.*?` with the `\1` back-reference ends the match at the *nearest* later close
tag of the same style and name, the whole match is deleted, and scanning
resumes after it; an open tag with no later matching close is not part of any
match and is kept.
-/

/-- The two shortcode bracket styles. -/
inductive Style where
  | angle : Style
  | pct : Style
deriving DecidableEq

/-- One token of markdown content. -/
inductive Tok where
  | text : String → Tok
  | openTag : Style → String → Tok
  | closeTag : Style → String → Tok
deriving DecidableEq

/-- Suffix of the token list after the nearest close tag of style `s` named
`n`, or `none` when no such close tag occurs — the extent of the lazy `.*?`
back-reference match. -/
def findCloseSplit (s : Style) (n : String) : List Tok → Option (List Tok)
  | [] => none
  | t :: rest =>
    if t = Tok.closeTag s n then some rest else findCloseSplit s n rest

theorem findCloseSplit_length {s : Style} {n : String} :
    ∀ {l after : List Tok}, findCloseSplit s n l = some after →
      after.length < l.length := by
  intro l
  induction l with
  | nil => intro after h; simp [findCloseSplit] at h
  | cons t rest ih =>
    intro after h
    simp only [findCloseSplit] at h
    split at h
    · cases h
      exact Nat.lt_succ_self _
    · exact Nat.lt_trans (ih h) (Nat.lt_succ_self _)

/-- One substitution pass for style `s`: delete every leftmost non-overlapping
match of the paired-shortcode pattern of that style. -/
def stripStyle (s : Style) : List Tok → List Tok
  | [] => []
  | t :: rest =>
    match t with
    | Tok.openTag s2 n =>
      if s2 = s then
        match hf : findCloseSplit s n rest with
        | some after => stripStyle s after
        | none => t :: stripStyle s rest
      else t :: stripStyle s rest
    | _ => t :: stripStyle s rest
termination_by l => l.length
decreasing_by
  · simp only [List.length_cons]
    exact Nat.lt_trans (findCloseSplit_length hf) (Nat.lt_succ_self _)
  all_goals simp [List.length_cons]

/-- Embedding of `remove_hugo_shortcodes`: the angle-bracket pass followed by
the percent pass. -/
def remove_hugo_shortcodes (content : List Tok) : List Tok :=
  stripStyle Style.pct (stripStyle Style.angle content)

/-- A token is an open tag of the given style. -/
def isOpenOf (s : Style) (t : Tok) : Prop := ∃ m, t = Tok.openTag s m

/-! ### `extract_frontmatter` (lines 68-107) and `generate_file_tree` (lines 482-563)

A markdown file, as observed by `extract_frontmatter`, is in one of four
states: unreadable (any `OSError`, including `IsADirectoryError` for a
directory matched by the glob), readable with no leading frontmatter block,
readable with a frontmatter block whose YAML is invalid or parses to a
non-dictionary, or readable with a block parsing to a dictionary of
string-valued entries.  The document tree is a function from relative paths
(component lists) to such states, together with the list of paths that
`rglob("*.md")` enumerates, in whatever order the filesystem yields them.
-/

/-- Result of parsing a frontmatter block as YAML. -/
inductive YamlResult where
  | invalid : YamlResult
  | nonDict : YamlResult
  | dict : List (String × String) → YamlResult

/-- Observable state of one file for frontmatter extraction. -/
inductive FileModel where
  | unreadable : FileModel
  | noBlock : FileModel
  | block : YamlResult → FileModel

/-- First value bound to a key in an association list, as `dict.get`. -/
def lookupKey (k : String) : List (String × String) → Option String
  | [] => none
  | (k2, v) :: rest => if k2 = k then some v else lookupKey k rest

/-- Embedding of `extract_frontmatter`: the `title`/`description` dictionary
extracted from a file, empty on any failure. -/
def extract_frontmatter : FileModel → List (String × String)
  | FileModel.unreadable => []
  | FileModel.noBlock => []
  | FileModel.block YamlResult.invalid => []
  | FileModel.block YamlResult.nonDict => []
  | FileModel.block (YamlResult.dict entries) =>
    (match lookupKey ("title") entries with
     | some v => [(("title" : String), v)]
     | none => []) ++
    (match lookupKey ("description") entries with
     | some v => [(("description" : String), v)]
     | none => [])

/-- File states in which frontmatter extraction yields nothing. -/
def degenerateModel : FileModel → Prop
  | FileModel.block (YamlResult.dict _) => False
  | _ => True

/-- Textual form of a path relative to the document root, used both as the
sort key (Python compares `Path` objects by their string form) and in the
generated links. -/
def joinSegs : List String → String
  | [] => ""
  | [s] => s
  | s :: rest => s ++ "/" ++ joinSegs rest

/-- Lexicographic comparison of character lists by code point, the order in
which Python compares strings. -/
def charListLe : List Char → List Char → Bool
  | [], _ => true
  | _ :: _, [] => false
  | a :: as, b :: bs =>
    if a.toNat < b.toNat then true
    else if b.toNat < a.toNat then false
    else charListLe as bs

/-- String comparison through `charListLe`. -/
def strLe (s t : String) : Bool := charListLe s.toList t.toList

/-- Order on paths used by `sorted(...)`: comparison of the textual form. -/
def pathLe (p q : List String) : Prop := strLe (joinSegs p) (joinSegs q) = true

instance : DecidableRel pathLe := fun p q =>
  inferInstanceAs (Decidable (strLe (joinSegs p) (joinSegs q) = true))

/-- An indentation string of `2 * d` spaces. -/
def indentOf : Nat → String
  | 0 => ""
  | d + 1 => "  " ++ indentOf d

/-- Lines emitted for one file entry at directory depth `d`: the link line
with the frontmatter title (falling back to the file name), and a description
line when a non-empty description is present (`if description:` is false for
the empty string). -/
def fileLines (fm : List String → FileModel) (d : Nat) (f : List String) :
    List String :=
  let meta := extract_frontmatter (fm f)
  let title := (lookupKey ("title") meta).getD (f.getLastD (""))
  let entry := indentOf (d + 1) ++ "├── [" ++ title ++ "](./references/ci/" ++
    joinSegs f ++ ")"
  match lookupKey ("description") meta with
  | some dsc =>
    if dsc = "" then [entry] else [entry, indentOf (d + 1) ++ "    " ++ dsc]
  | none => [entry]

/-- The sorted list of directories containing at least one matched file: the
keys of the `dirs` dictionary, sorted. -/
def dirsOf (md : List (List String)) : List (List String) :=
  List.insertionSort pathLe ((md.map (fun f => f.dropLast)).eraseDups)

/-- Lines emitted for one directory: its header (absent for the root) followed
by the lines of its files, sorted. -/
def linesForDir (fm : List String → FileModel) (md : List (List String))
    (dir : List String) : List String :=
  let depth := dir.length
  let header :=
    if dir = ([] : List String) then ([] : List String)
    else [indentOf depth ++ "├── " ++ dir.getLastD ("") ++ "/"]
  let inDir := List.insertionSort pathLe (md.filter (fun f => f.dropLast == dir))
  header ++ (inDir.map (fileLines fm depth)).flatten

/-- Concatenate lines with newline separators, as `"\n".join(...)`. -/
def joinLines : List String → String
  | [] => ""
  | [s] => s
  | s :: rest => s ++ "\n" ++ joinLines rest

/-- Body of `generate_file_tree` applied to the already-sorted file list. -/
def buildTree (rootName : String) (fm : List String → FileModel)
    (md : List (List String)) : String :=
  if md.isEmpty then "*No markdown files found*\n"
  else
    joinLines (["```text", rootName ++ "/"] ++
      ((dirsOf md).map (linesForDir fm md)).flatten ++ ["```"]) ++ "\n"

/-- Embedding of `generate_file_tree`: the generated index text, from the
document-root name, the tree content, and the file list in enumeration
order. -/
def generate_file_tree (rootName : String) (fm : List String → FileModel)
    (files : List (List String)) : String :=
  buildTree rootName fm (List.insertionSort pathLe files)

/-! ### `atomic_replace`, `update_docs`, `main` (lines 609-624, 627-747, 750-807)

The orchestrator's externally visible state: the published tree at
`references/ci` (abstracted as an optional value of type `α`), and whether the
downloaded archive file and the scratch extraction directory
`references/ci-new` exist.  Each run is driven by the outcome of its
failure-prone stages, summarised as the first failing stage (or `none` for a
fully successful run): `download` covers `download_archive`, `extract` covers
`extract_archive` (the scratch directory is created just before extraction, so
it exists even when extraction fails), `validate`/`groom`/`index` cover
`validate_extraction`, `groom_markdown_files` and
`generate_file_tree`/`update_skill_index`, and `publishRename` is a failure of
the `source.rename(target)` step of `atomic_replace`, which runs *after*
`shutil.rmtree(target)` has removed the previously published tree.
-/

/-- Externally visible filesystem state across a pipeline run. -/
structure PipeFS (α : Type) where
  published : Option α
  archive : Bool
  scratch : Bool
deriving DecidableEq

/-- First failing stage of a run. -/
inductive StageFail where
  | download : StageFail
  | extract : StageFail
  | validate : StageFail
  | groom : StageFail
  | index : StageFail
  | publishRename : StageFail
deriving DecidableEq

/-- Embedding of the `try` body of `update_docs` (before the `finally`
cleanup): the resulting state and whether the run succeeded.  `newTree` is the
groomed document tree that a successful run publishes. -/
def update_docs_core {α : Type} (failAt : Option StageFail) (newTree : α)
    (fs : PipeFS α) : PipeFS α × Bool :=
  if failAt = some StageFail.download then (fs, false)
  else
    let fs2 : PipeFS α := { fs with archive := true, scratch := true }
    if failAt = some StageFail.extract then (fs2, false)
    else if failAt = some StageFail.validate then (fs2, false)
    else if failAt = some StageFail.groom then (fs2, false)
    else if failAt = some StageFail.index then (fs2, false)
    else
      let fs3 : PipeFS α := { fs2 with published := none }
      if failAt = some StageFail.publishRename then (fs3, false)
      else ({ fs3 with published := some newTree }, true)

/-- Embedding of `update_docs` with its `finally` block: when `cleanup` is
set, the archive file and the scratch directory are removed whatever the
outcome. -/
def update_docs {α : Type} (cleanup : Bool) (failAt : Option StageFail)
    (newTree : α) (fs : PipeFS α) : PipeFS α × Bool :=
  let r := update_docs_core failAt newTree fs
  (if cleanup then { r.1 with archive := false, scratch := false } else r.1, r.2)

/-- Embedding of `main`'s terminal behaviour: run `update_docs` and record the
run status in the lock state (`success` on normal return, `failure` when an
update error propagates). -/
def main_run {α : Type} (cleanup : Bool) (failAt : Option StageFail)
    (newTree : α) (fs : PipeFS α) : PipeFS α × String :=
  let r := update_docs cleanup failAt newTree fs
  (r.1, if r.2 then "success" else "failure")

/-- Stages strictly before the publish step's destructive removal. -/
def prePublish : StageFail → Prop
  | StageFail.publishRename => False
  | _ => True

/-! ### `extract_archive` (lines 269-295)

`extract_archive` opens the tar archive and calls
`tar.extractall(path=extract_to, filter="data")`, wrapping any `TarError` in
`ExtractionError`.  An archive is modelled as the list of its member entries,
each a path (absolute flag plus components).
-/

/-- One member entry of a tar archive. -/
structure TarEntry where
  isAbs : Bool
  comps : List String
deriving DecidableEq

/-- Whether a relative component list escapes the extraction root at some
point: a `..` component taken at depth zero. -/
def depthEscapes : List String → Nat → Bool
  | [], _ => false
  | c :: rest, d =>
    if c = ".." then (if d = 0 then true else depthEscapes rest (d - 1))
    else if c = "." then depthEscapes rest d
    else if c = "" then depthEscapes rest d
    else depthEscapes rest (d + 1)

/-- Modelled from the spec: the member check of the `data` extraction filter
(part of the tar library, not of this repository), which rejects members with
absolute names and members whose target would fall outside the destination
directory.  The spec: extraction "must reject or sanitize entries that would
write outside `destDir`". -/
def entryEscapes (e : TarEntry) : Bool :=
  e.isAbs || depthEscapes e.comps 0

/-- Modelled from the spec: `extractall` with the `data` filter processes
members in order, extracting each member under the destination until a
filtered member raises; the files created so far remain.  Returns the created
file paths and whether a filter error was raised. -/
def tarExtractAll (dest : List String) : List TarEntry → List (List String) × Bool
  | [] => ([], false)
  | e :: rest =>
    if entryEscapes e then ([], true)
    else
      let r := tarExtractAll dest rest
      ((dest ++ normalizePath e.comps) :: r.1, r.2)

/-- Embedding of `extract_archive`: the files created under the destination,
and the `ExtractionError` message when the tar library raised. -/
def extract_archive (dest : List String) (entries : List TarEntry) :
    List (List String) × Option String :=
  let r := tarExtractAll dest entries
  (r.1, if r.2 then some ("Failed to extract archive") else none)

/-- A path lies inside the destination directory. -/
def withinDest (dest f : List String) : Prop := ∃ rest, f = dest ++ rest

/-! ## Claim theorems -/

/-- C1: the link-rewriting transform leaves a link `[text](target)` unchanged
when the target is an absolute web URL, a same-document anchor, or a mailto
link; otherwise it resolves the target against the directory of the file
holding the link and (a) rewrites to a `./`-prefixed document-root-relative
path when the resolution lands inside the document root, (b) rewrites to the
fixed GitLab raw-content URL template on the path relative to the parent `doc`
area when it lands outside the root but inside that area, and (c) leaves the
link unchanged when it lands outside that area entirely. -/
theorem c1_transform_links (text target : String) (cf root : List String) :
    (isSkippedTarget target = true →
      replace_link text target cf root = "[" ++ text ++ "](" ++ target ++ ")")
  ∧ (isSkippedTarget target = false →
      root.isPrefixOf (resolveTarget target cf) = true →
      replace_link text target cf root =
        "[" ++ text ++ "](./" ++
          relString ((resolveTarget target cf).drop root.length) ++ ")")
  ∧ (isSkippedTarget target = false →
      root.isPrefixOf (resolveTarget target cf) = false →
      root.dropLast.isPrefixOf (resolveTarget target cf) = true →
      replace_link text target cf root =
        "[" ++ text ++ "](" ++ gitlabRawBase ++
          relString ((resolveTarget target cf).drop root.dropLast.length) ++
          refTypeSuffix ++ ")")
  ∧ (isSkippedTarget target = false →
      root.isPrefixOf (resolveTarget target cf) = false →
      root.dropLast.isPrefixOf (resolveTarget target cf) = false →
      replace_link text target cf root = "[" ++ text ++ "](" ++ target ++ ")") := by
  refine ⟨?_, ?_, ?_, ?_⟩ <;> intros <;> simp [replace_link, *]

/-- C1 witness: a relative link from `doc/ci/yaml/index.md` to
`../pipelines/index.md` resolves inside the document root and is rewritten to
the root-relative form. -/
theorem c1_transform_links_witness :
    isSkippedTarget ("../pipelines/index.md") = false ∧
    replace_link ("text") ("../pipelines/index.md")
      (["w", "doc", "ci", "yaml", "index.md"]) (["w", "doc", "ci"]) =
      "[text](./pipelines/index.md)" :=
  ⟨rfl,
    (c1_transform_links ("text") ("../pipelines/index.md")
      (["w", "doc", "ci", "yaml", "index.md"]) (["w", "doc", "ci"])).2.1 rfl rfl⟩

/-- C2: the cooldown gate proceeds whenever forced; proceeds when no lock
state exists; proceeds when the recorded `last_status` is not `success`; and
otherwise proceeds exactly when at least the three-day cooldown has elapsed
since `last_run` — in particular it blocks an unforced run dated `now`, allows
the same run when forced, and allows an unforced run dated four days ago. -/
theorem c2_check_cooldown :
    (∀ lock now, check_cooldown lock true now = Except.ok true)
  ∧ (∀ now, check_cooldown LockContent.absent false now = Except.ok true)
  ∧ (∀ r now, r.last_status ≠ some ("success") →
      check_cooldown (LockContent.record r) false now = Except.ok true)
  ∧ (∀ t now,
      check_cooldown (LockContent.record ⟨some ("success"), some (some t)⟩)
          false now = Except.ok true ↔ cooldownSeconds ≤ now - t)
  ∧ (∀ now, check_cooldown
      (LockContent.record ⟨some ("success"), some (some now)⟩) false now =
        Except.ok false)
  ∧ (∀ now, check_cooldown
      (LockContent.record ⟨some ("success"), some (some now)⟩) true now =
        Except.ok true)
  ∧ (∀ now, check_cooldown
      (LockContent.record ⟨some ("success"), some (some (now - 4 * 86400))⟩)
        false now = Except.ok true) := by
  refine ⟨fun lock now => rfl, fun now => rfl, ?_, ?_, ?_, fun now => rfl, ?_⟩
  · intro r now h
    simp [check_cooldown, h]
  · intro t now
    constructor
    · intro h
      by_contra hlt
      simp [check_cooldown, cooldownSeconds] at h hlt
      omega
    · intro h
      have hn : ¬ now - t < cooldownSeconds := by omega
      simp [check_cooldown, hn]
  · intro now
    simp [check_cooldown, cooldownSeconds]
  · intro now
    norm_num [check_cooldown, cooldownSeconds]

/-- C2 witness: a record with a failed last status never blocks an unforced
run. -/
theorem c2_check_cooldown_witness :
    (some ("failure") : Option String) ≠ some ("success") ∧
    check_cooldown (LockContent.record ⟨some ("failure"), none⟩) false 0 =
      Except.ok true :=
  ⟨by decide, c2_check_cooldown.2.2.1 ⟨some ("failure"), none⟩ 0 (by decide)⟩

/-- C7 counterexample: a lock record whose `last_run` field is present but not
parseable, under a `last_status` other than `success`, makes the unforced
cooldown check return `true` instead of raising — the `last_status` test runs
before the timestamp is ever parsed, so not every malformed field is fatal. -/
theorem c7_counterexample :
    check_cooldown (LockContent.record ⟨some ("failure"), some none⟩) false 0 =
      Except.ok true := rfl

/-- C7 (amended): the cooldown check fails with the umbrella update error on a
lock file that is not valid JSON, and on a missing or unparseable `last_run`
timestamp when — and only in the case that — the recorded `last_status` is
`success`; with any other status the check returns `true` without consulting
the timestamp. -/
theorem c7_malformed_lock_fatal :
    (∀ now, check_cooldown LockContent.malformed false now =
      Except.error ("Failed to read lock file"))
  ∧ (∀ r now, r.last_status = some ("success") →
      (r.last_run = none ∨ r.last_run = some none) →
      check_cooldown (LockContent.record r) false now =
        Except.error ("Invalid timestamp in lock file"))
  ∧ (∀ r now, r.last_status ≠ some ("success") →
      check_cooldown (LockContent.record r) false now = Except.ok true) := by
  refine ⟨fun now => rfl, ?_, ?_⟩
  · rintro ⟨st, lr⟩ now hs (hr | hr) <;>
      (simp only at hs hr; subst hs; subst hr; rfl)
  · intro r now h
    simp [check_cooldown, h]

/-- C7 witness: a record with `last_status = success` and an unparseable
`last_run` is fatal. -/
theorem c7_malformed_lock_fatal_witness :
    check_cooldown (LockContent.record ⟨some ("success"), some none⟩) false 0 =
      Except.error ("Invalid timestamp in lock file") :=
  c7_malformed_lock_fatal.2.1 ⟨some ("success"), some none⟩ 0 rfl (Or.inr rfl)

/-- C3 counterexample: an extracted tree whose `doc/ci` directory holds a
single *directory* named `x.md` and no markdown file at all is accepted by
`validate_extraction` — `rglob("*.md")` matches directories too — so the claim
that zero markdown files always raise `ValidationError` is false. -/
theorem c3_counterexample :
    validate_extraction
        [FSEntry.dir ("top") [FSEntry.dir ("doc")
          [FSEntry.dir ("ci") [FSEntry.dir ("x.md") []]]]] =
      Except.ok (FSEntry.dir ("ci") [FSEntry.dir ("x.md") []])
  ∧ mdFileCountList [FSEntry.dir ("x.md") []] = 0 :=
  ⟨rfl, rfl⟩

/-- C3 (amended): structure validation fails closed — it errors on zero
top-level entries, on more than one top-level entry, on a single top-level
entry that is not a directory, on a missing or non-directory `doc/ci` subpath,
and on a `doc/ci` subpath with zero entries (files *or directories*) whose
names match `*.md`; it returns the nested document root exactly when one
top-level directory contains `doc/ci` with at least one such matching entry
(a directory named `*.md` counts, so "zero markdown files" alone does not
force an error). -/
theorem c3_validate_extraction :
    ((validate_extraction []).isOk = false)
  ∧ (∀ a b l, (validate_extraction (a :: b :: l)).isOk = false)
  ∧ (∀ n, (validate_extraction [FSEntry.file n]).isOk = false)
  ∧ (∀ n cs, lookupDir ("doc") cs = none →
      (validate_extraction [FSEntry.dir n cs]).isOk = false)
  ∧ (∀ n cs dcs, lookupDir ("doc") cs = some dcs →
      lookupDir ("ci") dcs = none →
      (validate_extraction [FSEntry.dir n cs]).isOk = false)
  ∧ (∀ n cs dcs ccs, lookupDir ("doc") cs = some dcs →
      lookupDir ("ci") dcs = some ccs → mdEntryCountList ccs = 0 →
      (validate_extraction [FSEntry.dir n cs]).isOk = false)
  ∧ (∀ n cs dcs ccs, lookupDir ("doc") cs = some dcs →
      lookupDir ("ci") dcs = some ccs → mdEntryCountList ccs ≠ 0 →
      validate_extraction [FSEntry.dir n cs] =
        Except.ok (FSEntry.dir ("ci") ccs)) := by
  refine ⟨rfl, fun a b l => ?_, fun n => rfl, ?_, ?_, ?_, ?_⟩
  · cases a <;> rfl
  · intro n cs h
    simp only [validate_extraction, h]
    rfl
  · intro n cs dcs h₁ h₂
    simp only [validate_extraction, h₁, h₂]
    rfl
  · intro n cs dcs ccs h₁ h₂ h₃
    simp only [validate_extraction, h₁, h₂, if_pos h₃]
    rfl
  · intro n cs dcs ccs h₁ h₂ h₃
    simp only [validate_extraction, h₁, h₂, if_neg h₃]

/-- C3 witness: one top-level directory containing `doc/ci` with one markdown
file validates and returns the `doc/ci` root. -/
theorem c3_validate_extraction_witness :
    validate_extraction
        [FSEntry.dir ("top") [FSEntry.dir ("doc")
          [FSEntry.dir ("ci") [FSEntry.file ("a.md")]]]] =
      Except.ok (FSEntry.dir ("ci") [FSEntry.file ("a.md")]) :=
  c3_validate_extraction.2.2.2.2.2.2 ("top")
    ([FSEntry.dir ("doc") [FSEntry.dir ("ci") [FSEntry.file ("a.md")]]])
    ([FSEntry.dir ("ci") [FSEntry.file ("a.md")]])
    ([FSEntry.file ("a.md")]) rfl rfl (by decide)

/-- C4 counterexample: a run failing in the rename step of `atomic_replace`
(after `shutil.rmtree` has removed the previously published tree) records
`failure` but leaves the published path absent — not byte-for-byte unchanged —
so the claim does not extend to failures during the publish step itself. -/
theorem c4_counterexample :
    (main_run true (some StageFail.publishRename) 1
        ({ published := some 0, archive := false, scratch := false } :
          PipeFS Nat)).2 = "failure"
  ∧ (main_run true (some StageFail.publishRename) 1
        ({ published := some 0, archive := false, scratch := false } :
          PipeFS Nat)).1.published = none
  ∧ (none : Option Nat) ≠ some 0 :=
  ⟨rfl, rfl, by decide⟩

/-- C4 (amended): every failed run records `last_status = failure`; a failure
at any stage before the publish step leaves the previously published tree
unchanged; but a failure in the rename half of the publish step leaves the
published path absent, the old tree having already been removed. -/
theorem c4_failure_keeps_published {α : Type} (cleanup : Bool) (newTree : α)
    (fs : PipeFS α) :
    (∀ s : StageFail, (main_run cleanup (some s) newTree fs).2 = "failure")
  ∧ (∀ s : StageFail, prePublish s →
      (main_run cleanup (some s) newTree fs).1.published = fs.published)
  ∧ (main_run cleanup (some StageFail.publishRename) newTree fs).1.published =
      none := by
  refine ⟨?_, ?_, ?_⟩
  · intro s
    cases s <;> cases cleanup <;> rfl
  · intro s hp
    cases s with
    | publishRename => exact hp.elim
    | download => cases cleanup <;> rfl
    | extract => cases cleanup <;> rfl
    | validate => cases cleanup <;> rfl
    | groom => cases cleanup <;> rfl
    | index => cases cleanup <;> rfl
  · cases cleanup <;> rfl

/-- C4 witness: a validation failure with cleanup enabled records `failure`
and leaves the published tree untouched. -/
theorem c4_failure_keeps_published_witness :
    (main_run true (some StageFail.validate) 1
        ({ published := some 0, archive := false, scratch := false } :
          PipeFS Nat)).2 = "failure"
  ∧ (main_run true (some StageFail.validate) 1
        ({ published := some 0, archive := false, scratch := false } :
          PipeFS Nat)).1.published = some 0 :=
  ⟨(c4_failure_keeps_published true 1
      ({ published := some 0, archive := false, scratch := false } :
        PipeFS Nat)).1 StageFail.validate,
   (c4_failure_keeps_published true 1
      ({ published := some 0, archive := false, scratch := false } :
        PipeFS Nat)).2.1 StageFail.validate trivial⟩

/-- C9: whatever the outcome of the run, the `finally` step with cleanup
enabled removes the downloaded archive and the scratch extraction directory;
with cleanup disabled the run's state is exactly the pipeline's state, both
temporaries left in place. -/
theorem c9_cleanup_temporaries {α : Type} (failAt : Option StageFail)
    (newTree : α) (fs : PipeFS α) :
    ((update_docs true failAt newTree fs).1.archive = false
      ∧ (update_docs true failAt newTree fs).1.scratch = false)
  ∧ update_docs false failAt newTree fs = update_docs_core failAt newTree fs :=
  ⟨⟨rfl, rfl⟩, rfl⟩

theorem tarExtractAll_within {dest : List String} :
    ∀ (entries : List TarEntry) (f : List String),
      f ∈ (tarExtractAll dest entries).1 → withinDest dest f := by
  intro entries
  induction entries with
  | nil => intro f h; simp [tarExtractAll] at h
  | cons e rest ih =>
    intro f h
    by_cases he : entryEscapes e = true
    · simp [tarExtractAll, he] at h
    · simp [tarExtractAll, he] at h
      rcases h with h | h
      · exact ⟨normalizePath e.comps, h⟩
      · exact ih f h

theorem tarExtractAll_err (dest : List String) :
    ∀ {entries : List TarEntry}, (∃ e ∈ entries, entryEscapes e = true) →
      (tarExtractAll dest entries).2 = true := by
  intro entries
  induction entries with
  | nil =>
    rintro ⟨e, he, _⟩
    simp at he
  | cons a rest ih =>
    rintro ⟨e, he, hesc⟩
    by_cases ha : entryEscapes a = true
    · simp [tarExtractAll, ha]
    · rcases List.mem_cons.mp he with rfl | hmem
      · exact absurd hesc ha
      · simp [tarExtractAll, ha]
        exact ih ⟨e, hmem, hesc⟩

/-- C8: whenever an archive contains a member whose path escapes the
destination directory (an absolute name, or `..` components climbing out),
extraction fails with `ExtractionError`, and every file the extraction did
create lies inside the destination directory. -/
theorem c8_path_traversal (dest : List String) (entries : List TarEntry)
    (h : ∃ e ∈ entries, entryEscapes e = true) :
    (extract_archive dest entries).2 = some ("Failed to extract archive")
  ∧ ∀ f ∈ (extract_archive dest entries).1, withinDest dest f := by
  constructor
  · have herr := tarExtractAll_err dest h
    simp [extract_archive, herr]
  · intro f hf
    exact tarExtractAll_within entries f hf

/-- C8 witness: an archive whose sole member climbs out of the destination
with `..` makes extraction fail, with no file created outside the
destination. -/
theorem c8_path_traversal_witness :
    (extract_archive ["w", "dest"] [⟨false, ["..", "evil.txt"]⟩]).2 =
      some ("Failed to extract archive")
  ∧ ∀ f ∈ (extract_archive ["w", "dest"] [⟨false, ["..", "evil.txt"]⟩]).1,
      withinDest ["w", "dest"] f :=
  c8_path_traversal (["w", "dest"]) ([⟨false, ["..", "evil.txt"]⟩])
    ⟨⟨false, ["..", "evil.txt"]⟩, by decide, rfl⟩

theorem stripStyle_nil (s : Style) : stripStyle s [] = [] := by
  simp [stripStyle]

theorem stripStyle_open_found {s : Style} {n : String} {rest after : List Tok}
    (hf : findCloseSplit s n rest = some after) :
    stripStyle s (Tok.openTag s n :: rest) = stripStyle s after := by
  rw [stripStyle]
  split
  · split
    · rename_i a heq
      rw [hf] at heq
      cases heq
      rfl
    · rename_i heq
      rw [hf] at heq
      cases heq
  · rename_i hcond
    exact absurd rfl hcond

theorem stripStyle_open_none {s : Style} {n : String} {rest : List Tok}
    (hf : findCloseSplit s n rest = none) :
    stripStyle s (Tok.openTag s n :: rest) = Tok.openTag s n :: stripStyle s rest := by
  rw [stripStyle]
  split
  · split
    · rename_i a heq
      rw [hf] at heq
      cases heq
    · rfl
  · rename_i hcond
    exact absurd rfl hcond

theorem stripStyle_open_other {s s2 : Style} {n : String} {rest : List Tok}
    (hs : s2 ≠ s) :
    stripStyle s (Tok.openTag s2 n :: rest) = Tok.openTag s2 n :: stripStyle s rest := by
  rw [stripStyle]
  simp [hs]

theorem stripStyle_text (s : Style) (u : String) (rest : List Tok) :
    stripStyle s (Tok.text u :: rest) = Tok.text u :: stripStyle s rest := by
  rw [stripStyle]
  simp

theorem stripStyle_close (s s2 : Style) (n : String) (rest : List Tok) :
    stripStyle s (Tok.closeTag s2 n :: rest) =
      Tok.closeTag s2 n :: stripStyle s rest := by
  rw [stripStyle]
  simp

theorem findCloseSplit_eq_none {s : Style} {n : String} :
    ∀ {l : List Tok}, Tok.closeTag s n ∉ l → findCloseSplit s n l = none := by
  intro l
  induction l with
  | nil => intro _; rfl
  | cons t rest ih =>
    intro h
    have ht : t ≠ Tok.closeTag s n := fun he => h (he ▸ List.mem_cons_self t rest)
    simp only [findCloseSplit, if_neg ht]
    exact ih (fun hm => h (List.mem_cons_of_mem t hm))

theorem findCloseSplit_append {s : Style} {n : String} {post : List Tok} :
    ∀ {mid : List Tok}, Tok.closeTag s n ∉ mid →
      findCloseSplit s n (mid ++ Tok.closeTag s n :: post) = some post := by
  intro mid
  induction mid with
  | nil =>
    intro _
    simp [findCloseSplit]
  | cons t rest ih =>
    intro h
    have ht : t ≠ Tok.closeTag s n := fun he => h (he ▸ List.mem_cons_self t rest)
    simp only [List.cons_append, findCloseSplit, if_neg ht]
    exact ih (fun hm => h (List.mem_cons_of_mem t hm))

theorem findCloseSplit_suffix_mem {s : Style} {n : String} :
    ∀ {l after : List Tok}, findCloseSplit s n l = some after →
      ∀ t ∈ after, t ∈ l := by
  intro l
  induction l with
  | nil => intro after h; simp [findCloseSplit] at h
  | cons a rest ih =>
    intro after h t ht
    simp only [findCloseSplit] at h
    split at h
    · cases h
      exact List.mem_cons_of_mem a ht
    · exact List.mem_cons_of_mem a (ih h t ht)

theorem mem_of_mem_stripStyle {s : Style} :
    ∀ (l : List Tok) (t : Tok), t ∈ stripStyle s l → t ∈ l
  | [], t, h => by
    rw [stripStyle_nil] at h
    exact h
  | Tok.text u :: rest, t, h => by
    rw [stripStyle_text] at h
    rcases List.mem_cons.mp h with rfl | h2
    · exact List.mem_cons_self _ _
    · exact List.mem_cons_of_mem _ (mem_of_mem_stripStyle rest t h2)
  | Tok.closeTag s2 n :: rest, t, h => by
    rw [stripStyle_close] at h
    rcases List.mem_cons.mp h with rfl | h2
    · exact List.mem_cons_self _ _
    · exact List.mem_cons_of_mem _ (mem_of_mem_stripStyle rest t h2)
  | Tok.openTag s2 n :: rest, t, h => by
    by_cases hs : s2 = s
    · subst hs
      cases hf : findCloseSplit s2 n rest with
      | none =>
        rw [stripStyle_open_none hf] at h
        rcases List.mem_cons.mp h with rfl | h2
        · exact List.mem_cons_self _ _
        · exact List.mem_cons_of_mem _ (mem_of_mem_stripStyle rest t h2)
      | some after =>
        rw [stripStyle_open_found hf] at h
        exact List.mem_cons_of_mem _
          (findCloseSplit_suffix_mem hf t (mem_of_mem_stripStyle after t h))
    · rw [stripStyle_open_other hs] at h
      rcases List.mem_cons.mp h with rfl | h2
      · exact List.mem_cons_self _ _
      · exact List.mem_cons_of_mem _ (mem_of_mem_stripStyle rest t h2)
termination_by l => l.length
decreasing_by
  all_goals simp only [List.length_cons]
  · exact Nat.lt_succ_self _
  · exact Nat.lt_succ_self _
  · exact Nat.lt_succ_self _
  · exact Nat.lt_trans (findCloseSplit_length hf) (Nat.lt_succ_self _)
  · exact Nat.lt_succ_self _

theorem stripStyle_no_open {s : Style} :
    ∀ {l : List Tok}, (∀ t ∈ l, ¬ isOpenOf s t) → ∀ post,
      stripStyle s (l ++ post) = l ++ stripStyle s post := by
  intro l
  induction l with
  | nil => intro _ post; rfl
  | cons t rest ih =>
    intro h post
    have hrest : ∀ u ∈ rest, ¬ isOpenOf s u :=
      fun u hu => h u (List.mem_cons_of_mem t hu)
    have hstep := ih hrest post
    cases t with
    | text u => rw [List.cons_append, stripStyle_text, hstep, List.cons_append]
    | closeTag s2 n => rw [List.cons_append, stripStyle_close, hstep, List.cons_append]
    | openTag s2 n =>
      have hs : s2 ≠ s := by
        intro he
        exact h (Tok.openTag s2 n) (List.mem_cons_self _ _) ⟨n, by rw [he]⟩
      rw [List.cons_append, stripStyle_open_other hs, hstep, List.cons_append]

theorem stripStyle_removes {s : Style} {n : String} {mid : List Tok}
    (post : List Tok) (h : Tok.closeTag s n ∉ mid) :
    stripStyle s (Tok.openTag s n :: (mid ++ Tok.closeTag s n :: post)) =
      stripStyle s post :=
  stripStyle_open_found (findCloseSplit_append h)

theorem stripStyle_keeps_unmatched {s : Style} {n : String} {rest : List Tok}
    (h : Tok.closeTag s n ∉ rest) :
    stripStyle s (Tok.openTag s n :: rest) =
      Tok.openTag s n :: stripStyle s rest :=
  stripStyle_open_none (findCloseSplit_eq_none h)

/-- C5 counterexample: a percent-style open tag with no matching close tag
anywhere is *not* left untouched when it lies inside an angle-style block —
the angle pass removes the whole block, the inner percent tag with it.  The
claim's "left untouched in the output" therefore does not hold universally. -/
theorem c5_counterexample :
    remove_hugo_shortcodes
        [Tok.openTag Style.angle ("a"), Tok.openTag Style.pct ("b"),
          Tok.closeTag Style.angle ("a"), Tok.text ("x")] = [Tok.text ("x")]
  ∧ Tok.openTag Style.pct ("b") ∉ ([Tok.text ("x")] : List Tok) := by
  constructor
  · simp [remove_hugo_shortcodes, stripStyle, findCloseSplit]
  · decide

/-- C5 (amended): shortcode removal deletes a paired block of either bracket
style whose open and close tag names match, blocks spanning multiple lines
included, with the lazy match ending at the nearest matching close tag (for
the percent style, provided the block's interior does not open an angle-style
block, which the earlier angle pass would consume together with the percent
close tag); an open tag with no matching close tag, and a pair whose tag names
differ, are left untouched when not themselves contained in a removed
block. -/
theorem c5_remove_hugo_shortcodes :
    (∀ n mid post, Tok.closeTag Style.angle n ∉ mid →
      remove_hugo_shortcodes
          (Tok.openTag Style.angle n ::
            (mid ++ Tok.closeTag Style.angle n :: post)) =
        remove_hugo_shortcodes post)
  ∧ (∀ n mid post, Tok.closeTag Style.pct n ∉ mid →
      (∀ t ∈ mid, ¬ isOpenOf Style.angle t) →
      remove_hugo_shortcodes
          (Tok.openTag Style.pct n :: (mid ++ Tok.closeTag Style.pct n :: post)) =
        remove_hugo_shortcodes post)
  ∧ (∀ s n rest, Tok.closeTag s n ∉ rest →
      remove_hugo_shortcodes (Tok.openTag s n :: rest) =
        Tok.openTag s n :: remove_hugo_shortcodes rest)
  ∧ (∀ s a b u, a ≠ b →
      remove_hugo_shortcodes
          [Tok.openTag s a, Tok.text u, Tok.closeTag s b] =
        [Tok.openTag s a, Tok.text u, Tok.closeTag s b]) := by
  refine ⟨?_, ?_, ?_, ?_⟩
  · intro n mid post h
    unfold remove_hugo_shortcodes
    rw [stripStyle_removes post h]
  · intro n mid post h hmid
    unfold remove_hugo_shortcodes
    have hskip : ∀ t ∈ Tok.openTag Style.pct n :: (mid ++ [Tok.closeTag Style.pct n]),
        ¬ isOpenOf Style.angle t := by
      intro t ht
      rcases List.mem_cons.mp ht with rfl | ht2
      · rintro ⟨m, hm⟩
        cases hm
      · rcases List.mem_append.mp ht2 with ht3 | ht3
        · exact hmid t ht3
        · rcases List.mem_singleton.mp ht3 with rfl
          rintro ⟨m, hm⟩
          cases hm
    have hassoc :
        Tok.openTag Style.pct n :: (mid ++ Tok.closeTag Style.pct n :: post) =
          (Tok.openTag Style.pct n :: (mid ++ [Tok.closeTag Style.pct n])) ++ post := by
      simp
    rw [hassoc, stripStyle_no_open hskip post]
    have hassoc2 :
        (Tok.openTag Style.pct n :: (mid ++ [Tok.closeTag Style.pct n])) ++
            stripStyle Style.angle post =
          Tok.openTag Style.pct n ::
            (mid ++ Tok.closeTag Style.pct n :: stripStyle Style.angle post) := by
      simp
    rw [hassoc2, stripStyle_removes (stripStyle Style.angle post) h]
  · intro s n rest h
    unfold remove_hugo_shortcodes
    cases s with
    | angle =>
      rw [stripStyle_keeps_unmatched h,
        stripStyle_open_other (by intro he; cases he)]
    | pct =>
      rw [stripStyle_open_other (by intro he; cases he)]
      have h2 : Tok.closeTag Style.pct n ∉ stripStyle Style.angle rest :=
        fun hm => h (mem_of_mem_stripStyle rest _ hm)
      rw [stripStyle_keeps_unmatched h2]
  · intro s a b u hab
    have hclose : ∀ s2 : Style,
        Tok.closeTag s2 a ∉ [Tok.text u, Tok.closeTag s b] := by
      intro s2 hm
      rcases List.mem_cons.mp hm with he | hm2
      · cases he
      · rcases List.mem_singleton.mp hm2 with he
        cases he
        exact hab rfl
    unfold remove_hugo_shortcodes
    cases s with
    | angle =>
      rw [stripStyle_keeps_unmatched (hclose Style.angle), stripStyle_text,
        stripStyle_close, stripStyle_nil,
        stripStyle_open_other (by intro he; cases he), stripStyle_text,
        stripStyle_close, stripStyle_nil]
    | pct =>
      rw [stripStyle_open_other (by intro he; cases he), stripStyle_text,
        stripStyle_close, stripStyle_nil,
        stripStyle_keeps_unmatched (hclose Style.pct), stripStyle_text,
        stripStyle_close, stripStyle_nil]

/-- C5 witness: a block of the angle style spanning multiple lines is removed
whole; the surrounding content is what the pass leaves. -/
theorem c5_remove_hugo_shortcodes_witness :
    remove_hugo_shortcodes
        (Tok.openTag Style.angle ("history") ::
          ([Tok.text ("Version\ninfo")] ++
            Tok.closeTag Style.angle ("history") :: [Tok.text ("More text")])) =
      remove_hugo_shortcodes [Tok.text ("More text")] :=
  c5_remove_hugo_shortcodes.1 ("history") ([Tok.text ("Version\ninfo")])
    ([Tok.text ("More text")]) (by decide)

theorem charListLe_total : ∀ a b : List Char, charListLe a b = true ∨ charListLe b a = true
  | [], _ => Or.inl rfl
  | _ :: _, [] => Or.inr rfl
  | a :: as, b :: bs => by
    rcases Nat.lt_trichotomy a.toNat b.toNat with h | h | h
    · left; simp [charListLe, h]
    · rcases charListLe_total as bs with ih | ih
      · left; simp [charListLe, h, ih]
      · right; simp [charListLe, h.symm, ih]
    · right; simp [charListLe, h]

theorem charListLe_trans :
    ∀ {a b c : List Char}, charListLe a b = true → charListLe b c = true →
      charListLe a c = true
  | [], _, _, _, _ => rfl
  | _ :: _, [], _, hab, _ => by simp [charListLe] at hab
  | _ :: _, _ :: _, [], _, hbc => by simp [charListLe] at hbc
  | a :: as, b :: bs, c :: cs, hab, hbc => by
    simp only [charListLe] at hab hbc ⊢
    rcases Nat.lt_trichotomy a.toNat b.toNat with h₁ | h₁ | h₁
    · rcases Nat.lt_trichotomy b.toNat c.toNat with h₂ | h₂ | h₂
      · simp [Nat.lt_trans h₁ h₂]
      · have h₃ : a.toNat < c.toNat := by omega
        simp [h₃]
      · rw [if_neg (by omega), if_pos h₂] at hbc
        simp at hbc
    · rcases Nat.lt_trichotomy b.toNat c.toNat with h₂ | h₂ | h₂
      · have h₃ : a.toNat < c.toNat := by omega
        simp [h₃]
      · rw [if_neg (by omega), if_neg (by omega)] at hab
        rw [if_neg (by omega), if_neg (by omega)] at hbc
        rw [if_neg (by omega), if_neg (by omega)]
        exact charListLe_trans hab hbc
      · rw [if_neg (by omega), if_pos h₂] at hbc
        simp at hbc
    · rw [if_neg (by omega), if_pos h₁] at hab
      simp at hab

theorem char_eq_of_toNat_eq {a b : Char} (h : a.toNat = b.toNat) : a = b := by
  have := congrArg Char.ofNat h
  rwa [Char.ofNat_toNat, Char.ofNat_toNat] at this

theorem charListLe_antisymm :
    ∀ {a b : List Char}, charListLe a b = true → charListLe b a = true → a = b
  | [], [], _, _ => rfl
  | [], _ :: _, _, hba => by simp [charListLe] at hba
  | _ :: _, [], hab, _ => by simp [charListLe] at hab
  | a :: as, b :: bs, hab, hba => by
    simp only [charListLe] at hab hba
    rcases Nat.lt_trichotomy a.toNat b.toNat with h | h | h
    · simp [Nat.lt_asymm h, h] at hba
    · have h₄ : ¬ a.toNat < b.toNat := by omega
      have h₅ : ¬ b.toNat < a.toNat := by omega
      simp only [h₄, h₅, if_false] at hab hba
      rw [char_eq_of_toNat_eq h, charListLe_antisymm hab hba]
    · simp [Nat.lt_asymm h, h] at hab

theorem strLe_antisymm {s t : String} (h₁ : strLe s t = true)
    (h₂ : strLe t s = true) : s = t := by
  have h := charListLe_antisymm h₁ h₂
  cases s
  cases t
  exact congrArg String.mk (by simpa [String.toList] using h)

instance : IsTotal (List String) pathLe :=
  ⟨fun p q => charListLe_total (joinSegs p).toList (joinSegs q).toList⟩

instance : IsTrans (List String) pathLe :=
  ⟨fun _ _ _ h₁ h₂ => charListLe_trans h₁ h₂⟩

theorem pathLe_key_antisymm {p q : List String} (h₁ : pathLe p q)
    (h₂ : pathLe q p) : joinSegs p = joinSegs q :=
  strLe_antisymm h₁ h₂

theorem eq_of_perm_of_sorted_keys :
    ∀ {l₁ l₂ : List (List String)}, l₁.Perm l₂ →
      List.Sorted pathLe l₁ → List.Sorted pathLe l₂ →
      (l₁.map joinSegs).Nodup → l₁ = l₂ := by
  intro l₁
  induction l₁ with
  | nil =>
    intro l₂ hp _ _ _
    exact (List.Perm.eq_nil hp.symm).symm
  | cons a t₁ ih =>
    intro l₂ hp hs₁ hs₂ hnd
    cases l₂ with
    | nil => exact absurd (List.Perm.eq_nil hp) (by simp)
    | cons b t₂ =>
      have hab : a = b := by
        have hmem_a : a ∈ b :: t₂ := hp.mem_iff.mp (List.mem_cons_self a t₁)
        have hmem_b : b ∈ a :: t₁ := hp.mem_iff.mpr (List.mem_cons_self b t₂)
        rcases List.mem_cons.mp hmem_b with hba | hb
        · exact hba.symm
        · rcases List.mem_cons.mp hmem_a with hab2 | ha
          · exact hab2
          · have h₁ : pathLe a b := List.rel_of_sorted_cons hs₁ b hb
            have h₂ : pathLe b a := List.rel_of_sorted_cons hs₂ a ha
            have hkey : joinSegs a = joinSegs b := pathLe_key_antisymm h₁ h₂
            have hmem : joinSegs a ∈ t₁.map joinSegs := by
              rw [hkey]
              exact List.mem_map_of_mem joinSegs hb
            rw [List.map_cons, List.nodup_cons] at hnd
            exact absurd hmem hnd.1
      subst hab
      have hperm : t₁.Perm t₂ := hp.cons_inv
      have hnd₂ : (t₁.map joinSegs).Nodup := by
        rw [List.map_cons, List.nodup_cons] at hnd
        exact hnd.2
      rw [ih hperm hs₁.of_cons hs₂.of_cons hnd₂]

theorem insertionSort_eq_of_perm {l₁ l₂ : List (List String)}
    (hp : l₁.Perm l₂) (hnd : (l₁.map joinSegs).Nodup) :
    List.insertionSort pathLe l₁ = List.insertionSort pathLe l₂ := by
  have hp2 : (List.insertionSort pathLe l₁).Perm (List.insertionSort pathLe l₂) :=
    (List.perm_insertionSort pathLe l₁).trans
      (hp.trans (List.perm_insertionSort pathLe l₂).symm)
  have hmap : ((List.insertionSort pathLe l₁).map joinSegs).Perm
      (l₁.map joinSegs) :=
    (List.perm_insertionSort pathLe l₁).map joinSegs
  exact eq_of_perm_of_sorted_keys hp2 (List.sorted_insertionSort pathLe l₁)
    (List.sorted_insertionSort pathLe l₂) (hmap.nodup_iff.mpr hnd)

/-- C6: the index builder is a pure function of the tree's content — its
output does not depend on the order in which the filesystem enumerates the
markdown files (for any tree, whose file paths are pairwise distinct), so two
runs over an unchanged tree produce byte-identical output. -/
theorem c6_generate_file_tree_deterministic (rootName : String)
    (fm : List String → FileModel) {files₁ files₂ : List (List String)}
    (hp : files₁.Perm files₂) (hnd : (files₁.map joinSegs).Nodup) :
    generate_file_tree rootName fm files₁ =
      generate_file_tree rootName fm files₂ := by
  unfold generate_file_tree
  rw [insertionSort_eq_of_perm hp hnd]

/-- C6 witness: the same two files enumerated in either order produce the same
index text. -/
theorem c6_generate_file_tree_deterministic_witness :
    generate_file_tree ("ci") (fun _ => FileModel.unreadable)
        [["b.md"], ["a.md"]] =
      generate_file_tree ("ci") (fun _ => FileModel.unreadable)
        [["a.md"], ["b.md"]] :=
  c6_generate_file_tree_deterministic ("ci") (fun _ => FileModel.unreadable)
    (List.Perm.swap (["a.md"]) (["b.md"]) []) (by decide)

/-- C10: frontmatter extraction is total — for an unreadable file, a file with
no leading metadata block, a block that is not valid YAML, or one parsing to a
non-dictionary, it returns the empty dictionary rather than failing, and the
index builder then falls back to the file name as the entry title and emits no
description line. -/
theorem c10_frontmatter_fallback (m : FileModel) (h : degenerateModel m)
    (rootName fname : String) :
    extract_frontmatter m = []
  ∧ generate_file_tree rootName (fun _ => m) [[fname]] =
      joinLines ["```text", rootName ++ "/",
        "  ├── [" ++ fname ++ "](./references/ci/" ++ fname ++ ")", "```"] ++
        "\n" := by
  cases m with
  | unreadable => exact ⟨rfl, rfl⟩
  | noBlock => exact ⟨rfl, rfl⟩
  | block y =>
    cases y with
    | invalid => exact ⟨rfl, rfl⟩
    | nonDict => exact ⟨rfl, rfl⟩
    | dict entries => exact h.elim

/-- C10 witness: an unreadable file is listed under its file name with no
description line. -/
theorem c10_frontmatter_fallback_witness :
    extract_frontmatter FileModel.unreadable = []
  ∧ generate_file_tree ("ci") (fun _ => FileModel.unreadable) [["page.md"]] =
      joinLines ["```text", "ci" ++ "/",
        "  ├── [" ++ "page.md" ++ "](./references/ci/" ++ "page.md" ++ ")",
        "```"] ++ "\n" :=
  c10_frontmatter_fallback FileModel.unreadable True.intro ("ci") ("page.md")

end SyncDocs
